import Mathlib

/-!
Verification of the photo-reference normalization routine and the audit
ingestion handlers of the subeb repository (src/server.js, with the embedded
server variant in src/update_audits_from_csv.js).

The JavaScript values flowing through the handlers are modelled by the
inductive type JSVal below.  JavaScript numbers are modelled as exact
rationals extended with NaN and the two infinities; this abstracts from
IEEE-754 rounding, which none of the verified claims depend on.
-/

namespace Subeb

/-- A JavaScript number: NaN, positive or negative infinity, or a finite
value modelled as an exact rational. -/
inductive JNum where
  | nan
  | inf
  | ninf
  | q (x : ℚ)
deriving DecidableEq, Repr

/-- A JavaScript value as seen by the handlers: null, undefined, boolean,
number, string, array, or plain object (a list of key-value fields, later
bindings shadowing earlier ones as with duplicate JSON keys). -/
inductive JSVal where
  | vNull
  | vUndefined
  | vBool (b : Bool)
  | vNum (n : JNum)
  | vStr (s : String)
  | vArr (elems : List JSVal)
  | vObj (fields : List (String × JSVal))
deriving Repr

namespace JSVal

/-- JavaScript truthiness of a JNum: NaN and 0 are falsy. -/
def jnumTruthy : JNum → Bool
  | .nan => false
  | .inf => true
  | .ninf => true
  | .q x => x ≠ 0

/-- JavaScript truthiness: null, undefined, false, NaN, 0 and the empty
string are falsy; arrays and objects are always truthy. -/
def truthy : JSVal → Bool
  | vNull => false
  | vUndefined => false
  | vBool b => b
  | vNum n => jnumTruthy n
  | vStr s => s ≠ ""
  | vArr _ => true
  | vObj _ => true

/-- Is the value a string (JavaScript typeof gives the word string)? -/
def isString : JSVal → Bool
  | vStr _ => true
  | _ => false

/-- Does JavaScript typeof yield the word object?  True for null, arrays
and plain objects. -/
def isObjectTy : JSVal → Bool
  | vNull => true
  | vArr _ => true
  | vObj _ => true
  | _ => false

/-- Strict equality with null. -/
def isNull : JSVal → Bool
  | vNull => true
  | _ => false

/-- Field lookup in an object field list; the last binding for a key wins,
matching the semantics of duplicate keys in object literals and JSON. -/
def objGet (fs : List (String × JSVal)) (k : String) : JSVal :=
  match fs.reverse.find? (fun p => p.1 == k) with
  | some p => p.2
  | none => vUndefined

/-- Property read v[k] for the property names the handlers use.  Reading a
property of a primitive, an array, or a missing field yields undefined.
Call sites where the source could throw (reads on null or undefined) are
modelled explicitly at those call sites. -/
def propGet (v : JSVal) (k : String) : JSVal :=
  match v with
  | vObj fs => objGet fs k
  | _ => vUndefined

end JSVal

/-! ### String helpers mirroring the JavaScript string methods used -/

/-- Whitespace for String.prototype.trim (the characters relevant here). -/
def isJsWs (c : Char) : Bool :=
  c = ' ' || c = '\t' || c = '\n' || c = '\r' || c = '\x0b' || c = '\x0c' || c = ' '

/-- JavaScript s.trim(). -/
def jsTrim (s : String) : String :=
  ⟨((s.data.dropWhile isJsWs).reverse.dropWhile isJsWs).reverse⟩

/-- JavaScript s.split(sep) for a one-character separator. -/
def jsSplitAux (sep : Char) : List Char → List Char → List (List Char)
  | [], acc => [acc.reverse]
  | c :: cs, acc =>
      if c = sep then acc.reverse :: jsSplitAux sep cs []
      else jsSplitAux sep cs (c :: acc)

/-- JavaScript s.split(sep); the empty string yields one empty piece. -/
def jsSplit (sep : Char) (s : String) : List String :=
  (jsSplitAux sep s.data []).map (⟨·⟩)

/-- JavaScript s.replace(/a/g, b) for one-character pattern and result. -/
def replChar (a b : Char) (s : String) : String :=
  ⟨s.data.map (fun c => if c = a then b else c)⟩

/-- JavaScript s.replace(/a/g, empty string): delete every occurrence. -/
def removeChar (a : Char) (s : String) : String :=
  ⟨s.data.filter (fun c => c ≠ a)⟩

/-- JavaScript s.startsWith(c) for a one-character prefix. -/
def strStartsWith (s : String) (c : Char) : Bool :=
  match s.data with
  | x :: _ => x = c
  | [] => false

/-- JavaScript s.endsWith(c) for a one-character suffix. -/
def strEndsWith (s : String) (c : Char) : Bool :=
  match s.data.getLast? with
  | some x => x = c
  | none => false

/-! ### A model of JSON.parse

JSON.parse follows the RFC 8259 grammar: it rejects single quotes, trailing
garbage, unescaped control characters inside string literals (in particular
raw newlines), and leading zeros in numbers.  Numbers are read exactly into
the rational model. -/

open JSVal

/-- Decimal digit test. -/
def isDig (c : Char) : Bool := '0' ≤ c && c ≤ '9'

/-- Longest digit prefix of the input together with the rest. -/
def spanDigits : List Char → List Char × List Char
  | c :: cs =>
      if isDig c then
        let p := spanDigits cs
        (c :: p.1, p.2)
      else ([], c :: cs)
  | [] => ([], [])

/-- Numeric value of a digit list. -/
def digsVal (ds : List Char) : Nat :=
  ds.foldl (fun a c => a * 10 + (c.toNat - 48)) 0

/-- Value of one hexadecimal digit, if it is one. -/
def hexDig (c : Char) : Option Nat :=
  if '0' ≤ c && c ≤ '9' then some (c.toNat - 48)
  else if 'a' ≤ c && c ≤ 'f' then some (c.toNat - 87)
  else if 'A' ≤ c && c ≤ 'F' then some (c.toNat - 55)
  else none

/-- Whitespace accepted between JSON tokens. -/
def jsonWs (c : Char) : Bool := c = ' ' || c = '\t' || c = '\n' || c = '\r'

/-- Skip inter-token JSON whitespace. -/
def skipJsonWs : List Char → List Char
  | c :: cs => if jsonWs c then skipJsonWs cs else c :: cs
  | [] => []

/-- Body of a JSON string literal after the opening quote.  Unescaped
control characters (code points below 32, hence raw newlines) are
rejected, as JSON.parse rejects them. -/
def jsonStrBody (acc : List Char) : List Char → Option (String × List Char)
  | '"' :: rest => some (⟨acc.reverse⟩, rest)
  | '\\' :: k :: rest =>
      match k with
      | '"' => jsonStrBody ('"' :: acc) rest
      | '\\' => jsonStrBody ('\\' :: acc) rest
      | '/' => jsonStrBody ('/' :: acc) rest
      | 'n' => jsonStrBody ('\n' :: acc) rest
      | 't' => jsonStrBody ('\t' :: acc) rest
      | 'r' => jsonStrBody ('\r' :: acc) rest
      | 'b' => jsonStrBody ('\x08' :: acc) rest
      | 'f' => jsonStrBody ('\x0c' :: acc) rest
      | 'u' =>
          match rest with
          | a :: b :: c :: d :: rest2 =>
              match hexDig a, hexDig b, hexDig c, hexDig d with
              | some x, some y, some z, some w =>
                  jsonStrBody (Char.ofNat (((x * 16 + y) * 16 + z) * 16 + w) :: acc) rest2
              | _, _, _, _ => none
          | _ => none
      | _ => none
  | c :: rest => if c.toNat < 32 then none else jsonStrBody (c :: acc) rest
  | [] => none

/-- A JSON number at the head of the input: optional minus sign, integer
part without leading zeros, optional fraction, optional exponent. -/
def jsonNum (cs : List Char) : Option (ℚ × List Char) :=
  let signRest : Bool × List Char := match cs with
    | '-' :: r => (true, r)
    | _ => (false, cs)
  let neg := signRest.1
  let afterInt : Option (Nat × List Char) := match signRest.2 with
    | '0' :: r =>
        match r with
        | c :: _ => if isDig c then none else some (0, r)
        | [] => some (0, [])
    | c :: r =>
        if isDig c ∧ c ≠ '0' then
          let p := spanDigits r
          some (digsVal (c :: p.1), p.2)
        else none
    | [] => none
  match afterInt with
  | none => none
  | some (ip, r1) =>
      let afterFrac : Option (ℚ × List Char) := match r1 with
        | '.' :: r2 =>
            let p := spanDigits r2
            if p.1 = [] then none
            else some ((ip : ℚ) + (digsVal p.1 : ℚ) / ((10 : ℚ) ^ p.1.length), p.2)
        | _ => some ((ip : ℚ), r1)
      match afterFrac with
      | none => none
      | some (mant, r3) =>
          let afterExp : Option (ℚ × List Char) := match r3 with
            | 'e' :: r4 | 'E' :: r4 =>
                let se : Bool × List Char := match r4 with
                  | '+' :: r5 => (false, r5)
                  | '-' :: r5 => (true, r5)
                  | _ => (false, r4)
                let p := spanDigits se.2
                if p.1 = [] then none
                else
                  let e := digsVal p.1
                  some (if se.1 then mant / ((10 : ℚ) ^ e) else mant * ((10 : ℚ) ^ e), p.2)
            | _ => some (mant, r3)
          afterExp.map (fun p => (if neg then -p.1 else p.1, p.2))

mutual

/-- One JSON value at the head of the input; fuel bounds the recursion. -/
def jsonVal (fuel : Nat) (cs : List Char) : Option (JSVal × List Char) :=
  match fuel with
  | 0 => none
  | fuel + 1 =>
    match skipJsonWs cs with
    | 'n' :: 'u' :: 'l' :: 'l' :: r => some (vNull, r)
    | 't' :: 'r' :: 'u' :: 'e' :: r => some (vBool true, r)
    | 'f' :: 'a' :: 'l' :: 's' :: 'e' :: r => some (vBool false, r)
    | '"' :: r => (jsonStrBody [] r).map (fun p => (vStr p.1, p.2))
    | '[' :: r =>
        (match skipJsonWs r with
         | ']' :: r2 => some (vArr [], r2)
         | r2 => (jsonArrItems fuel r2).map (fun p => (vArr p.1, p.2)))
    | '{' :: r =>
        (match skipJsonWs r with
         | '}' :: r2 => some (vObj [], r2)
         | r2 => (jsonObjItems fuel r2).map (fun p => (vObj p.1, p.2)))
    | r => (jsonNum r).map (fun p => (vNum (JNum.q p.1), p.2))

/-- Comma-separated array elements up to the closing bracket. -/
def jsonArrItems (fuel : Nat) (cs : List Char) : Option (List JSVal × List Char) :=
  match fuel with
  | 0 => none
  | fuel + 1 =>
    match jsonVal fuel cs with
    | none => none
    | some (v, r) =>
        match skipJsonWs r with
        | ',' :: r2 => (jsonArrItems fuel r2).map (fun p => (v :: p.1, p.2))
        | ']' :: r2 => some ([v], r2)
        | _ => none

/-- Comma-separated key-value members up to the closing brace. -/
def jsonObjItems (fuel : Nat) (cs : List Char) :
    Option (List (String × JSVal) × List Char) :=
  match fuel with
  | 0 => none
  | fuel + 1 =>
    match skipJsonWs cs with
    | '"' :: r =>
        match jsonStrBody [] r with
        | none => none
        | some (k, r1) =>
            match skipJsonWs r1 with
            | ':' :: r2 =>
                match jsonVal fuel r2 with
                | none => none
                | some (v, r3) =>
                    match skipJsonWs r3 with
                    | ',' :: r4 => (jsonObjItems fuel r4).map (fun p => ((k, v) :: p.1, p.2))
                    | '}' :: r4 => some ([(k, v)], r4)
                    | _ => none
            | _ => none
    | _ => none

end

/-- JSON.parse as used by the handlers: some value on success, none when
JSON.parse would throw (the callers catch that exception). -/
def jsonParse (s : String) : Option JSVal :=
  match jsonVal (s.data.length + 2) s.data with
  | some (v, rest) => if skipJsonWs rest = [] then some v else none
  | none => none

/-! ### The JavaScript String() and Number() conversions -/

/-- Rendering of a JavaScript number as a string.  Finite non-integral
values print as rationals, an idealization of the float decimal printing
that no verified claim evaluates. -/
def jnumToString : JNum → String
  | .nan => "NaN"
  | .inf => "Infinity"
  | .ninf => "-Infinity"
  | .q x => if x.den = 1 then toString x.num else toString x

mutual

/-- JavaScript String(v).  Arrays join their elements with commas (null and
undefined joining as empty), objects print as the usual object tag. -/
def jsToString : JSVal → String
  | vNull => "null"
  | vUndefined => "undefined"
  | vBool true => "true"
  | vBool false => "false"
  | vNum n => jnumToString n
  | vStr s => s
  | vArr xs => String.intercalate "," (arrStrings xs)
  | vObj _ => "[object Object]"

/-- Element renderings for the array join of jsToString. -/
def arrStrings : List JSVal → List String
  | [] => []
  | vNull :: xs => "" :: arrStrings xs
  | vUndefined :: xs => "" :: arrStrings xs
  | x :: xs => jsToString x :: arrStrings xs

end

/-- Numeric reading of a trimmed string for Number(): empty gives 0, the
Infinity words give infinities, hexadecimal, octal and binary prefixes are
accepted without a sign, else the decimal grammar (which, unlike JSON,
allows a plus sign, leading zeros, and a bare leading or trailing point).
Anything else is NaN. -/
def strNumBody (cs : List Char) : JNum :=
  match cs with
  | [] => .q 0
  | _ =>
    let radix : Option (Nat × List Char) := match cs with
      | '0' :: 'x' :: r => some (16, r)
      | '0' :: 'X' :: r => some (16, r)
      | '0' :: 'o' :: r => some (8, r)
      | '0' :: 'O' :: r => some (8, r)
      | '0' :: 'b' :: r => some (2, r)
      | '0' :: 'B' :: r => some (2, r)
      | _ => none
    match radix with
    | some (b, r) =>
        let vals := r.map (fun c => (hexDig c).filter (· < b))
        if r ≠ [] ∧ vals.all (·.isSome) then
          .q ((vals.foldl (fun a o => a * b + o.getD 0) 0 : Nat) : ℚ)
        else .nan
    | none =>
        let signRest : Bool × List Char := match cs with
          | '-' :: r => (true, r)
          | '+' :: r => (false, r)
          | _ => (false, cs)
        match signRest.2 with
        | 'I' :: 'n' :: 'f' :: 'i' :: 'n' :: 'i' :: 't' :: 'y' :: [] =>
            if signRest.1 then .ninf else .inf
        | body =>
            let ipSpan := spanDigits body
            let fracPart : Option (ℚ × List Char) := match ipSpan.2 with
              | '.' :: r2 =>
                  let p := spanDigits r2
                  if ipSpan.1 = [] ∧ p.1 = [] then none
                  else some ((digsVal p.1 : ℚ) / ((10 : ℚ) ^ p.1.length), p.2)
              | r2 => if ipSpan.1 = [] then none else some (0, r2)
            match fracPart with
            | none => .nan
            | some (fv, r3) =>
                let mant := (digsVal ipSpan.1 : ℚ) + fv
                let afterExp : Option (ℚ × List Char) := match r3 with
                  | 'e' :: r4 | 'E' :: r4 =>
                      let se : Bool × List Char := match r4 with
                        | '+' :: r5 => (false, r5)
                        | '-' :: r5 => (true, r5)
                        | _ => (false, r4)
                      let p := spanDigits se.2
                      if p.1 = [] then none
                      else some
                        (if se.1 then mant / ((10 : ℚ) ^ digsVal p.1)
                         else mant * ((10 : ℚ) ^ digsVal p.1), p.2)
                  | _ => some (mant, r3)
                match afterExp with
                | none => .nan
                | some (v, rest) =>
                    if rest = [] then .q (if signRest.1 then -v else v) else .nan

/-- JavaScript Number(s) on a string: trim, then read per strNumBody. -/
def strToNumber (s : String) : JNum :=
  strNumBody (jsTrim s).data

/-- JavaScript Number(v).  Arrays and objects convert through their string
rendering, since none of them override valueOf. -/
def toNumber : JSVal → JNum
  | vNull => .q 0
  | vUndefined => .nan
  | vBool true => .q 1
  | vBool false => .q 0
  | vNum n => n
  | vStr s => strToNumber s
  | vArr xs => strToNumber (jsToString (vArr xs))
  | vObj _ => .nan

/-- SameValueZero membership used by JS Set.has on the set of stored
identifiers: NaN matches NaN, and the rational model has a single zero. -/
def hasIdSVZ (ids : List JNum) (n : JNum) : Bool :=
  decide (n ∈ ids)

/-! ### The photo normalization pipeline of the audit handlers

src/server.js lines 112 to 188, shared verbatim between POST /api/audits
and POST /api/sync.  The JavaScript variable photos is threaded through the
stages below in source order. -/

/-- The object literal with fields name, data, type that wraps a bare
photo name. -/
def mkNameRec (s : String) : JSVal :=
  vObj [("name", vStr s), ("data", vStr ""), ("type", vStr "")]

/-- One element of the array map of lines 121-126 and 142-147: a string
becomes a name-only object, everything else passes through. -/
def strToRecElem : JSVal → JSVal
  | vStr s => mkNameRec s
  | p => p

/-- The map applied to an array of photos (lines 121-126, 142-147 of
src/server.js, likewise 227-232 and 248-253 in the sync handler). -/
def mapStrToRec (xs : List JSVal) : List JSVal :=
  xs.map strToRecElem

/-- The semicolon fallback: split the trimmed string on semicolons and wrap
each trimmed piece as a name-only object (lines 128, 131, 134). -/
def semiSplitRecs (str : String) : List JSVal :=
  (jsSplit ';' str).map fun piece => mkNameRec (jsTrim piece)

/-- Lines 113-148: the branch on the incoming shape of photos.  A
non-array string that is bracket-shaped after trimming has its single
quotes replaced by double quotes and is given to JSON.parse; on success
with an array the element map runs, otherwise the semicolon fallback.  A
bare object becomes a one-element array, null and the primitives become
the empty array, and an array goes straight to the element map. -/
def photosStage1 : JSVal → JSVal
  | vArr xs => vArr (mapStrToRec xs)
  | vStr s =>
      if jsTrim s = "" then vArr []
      else
        let str := jsTrim s
        if strStartsWith str '[' && strEndsWith str ']' then
          match jsonParse (replChar '\'' '"' str) with
          | some (vArr parsed) => vArr (mapStrToRec parsed)
          | some _ => vArr (semiSplitRecs str)
          | none => vArr (semiSplitRecs str)
        else vArr (semiSplitRecs str)
  | vObj fs => vArr [vObj fs]
  | _ => vArr []

/-- Lines 150-157: if photos is still a string, JSON.parse it, degrading
to the empty array when the parse throws.  (After photosStage1 the value
is always an array, so this stage is a provable no-op, but the source
performs the check and it is kept.) -/
def photosStage2 : JSVal → JSVal
  | vStr s =>
      match jsonParse s with
      | some v => v
      | none => vArr []
  | v => v

/-- The element predicate of the second validation branch (line 161): a
string, or a non-null object whose name property is a string. -/
def validElem (p : JSVal) : Bool :=
  p.isString || (p.isObjectTy && !p.isNull && (p.propGet "name").isString)

/-- Lines 159-165: if the array is not all strings and some element fails
validElem, the whole photos value is replaced by the empty array; a
non-array is likewise replaced. -/
def photosValidate : JSVal → JSVal
  | vArr xs =>
      if xs.all JSVal.isString then vArr xs
      else if ¬ xs.all validElem then vArr []
      else vArr xs
  | _ => vArr []

/-- The map of line 168: trim string elements, pass others through. -/
def cleanTrim : JSVal → JSVal
  | vStr s => vStr (jsTrim s)
  | p => p

/-- The filter of lines 169-173: keep non-empty strings and non-null
objects whose name property is truthy. -/
def cleanKeep : JSVal → Bool
  | vStr s => s.length > 0
  | p => if p.isObjectTy && !p.isNull then truthy (p.propGet "name") else false

/-- Lines 167-173: a non-array is replaced by the empty array, then the
trimming map and the keep filter run. -/
def photosClean (photos : JSVal) : List JSVal :=
  ((match photos with
    | vArr xs => xs
    | _ => []).map cleanTrim).filter cleanKeep

/-- The canonical photo record produced by the final conversion pass.  The
name is always a string there; data and type keep whatever truthy value
the source object carried, or the empty string. -/
structure PhotoRec where
  name : JSVal
  data : JSVal
  type : JSVal
deriving Repr

/-- JavaScript a || b. -/
def jsOr (a b : JSVal) : JSVal :=
  if truthy a then a else b

/-- The filter of line 188: the record is kept when its name is a string
and truthy, that is a non-empty string. -/
def keepRec (r : PhotoRec) : Bool :=
  match r.name with
  | vStr s => s ≠ ""
  | _ => false

/-- Lines 177-187: a string element becomes a name-only record, a non-null
object keeps its name, data and type fields with empty-string defaults,
anything else maps to null (here none). -/
def photoOfJS (p : JSVal) : Option PhotoRec :=
  match p with
  | vStr s => some ⟨vStr s, vStr "", vStr ""⟩
  | p =>
      if p.isObjectTy && !p.isNull then
        some ⟨jsOr (p.propGet "name") (vStr ""),
              jsOr (p.propGet "data") (vStr ""),
              jsOr (p.propGet "type") (vStr "")⟩
      else none

/-- The conversion of one element followed by the keep filter of line 188,
as one Option step: map to a record or null, keep when the name is a
non-empty string. -/
def convStep (p : JSVal) : Option PhotoRec :=
  match photoOfJS p with
  | some r => if keepRec r then some r else none
  | none => none

/-- Lines 176-188: map every element through photoOfJS and keep the
non-null results whose name is a non-empty string. -/
def photosConvert (xs : List JSVal) : List PhotoRec :=
  xs.filterMap convStep

/-- The photo normalization routine of the POST /api/audits handler
(src/server.js lines 112-188): the composition of the four stages above,
yielding the canonical ordered sequence of photo records. -/
def normalizePhotos (v : JSVal) : List PhotoRec :=
  photosConvert (photosClean (photosValidate (photosStage2 (photosStage1 v))))

/-- A produced record viewed again as the JavaScript object the handler
stores back into audit.photos after line 188. -/
def recToJS (r : PhotoRec) : JSVal :=
  vObj [("name", r.name), ("data", r.data), ("type", r.type)]

/-- Re-injection of the produced records as the JavaScript array the
handler stores back into audit.photos after line 188. -/
def photosToJS (l : List PhotoRec) : JSVal :=
  vArr (l.map recToJS)

/-! ### fixPhotosField and processPhotos (src/server.js lines 66-100) -/

/-- Lines 66-81: falsy input gives the empty array; a string has newlines
removed and single quotes replaced by double quotes and is JSON.parsed,
the parse result returned as-is and a parse failure caught into the empty
array; an array passes through and any other value becomes the empty
array. -/
def fixPhotosField (photosValue : JSVal) : JSVal :=
  if ¬ truthy photosValue then vArr []
  else
    match photosValue with
    | vStr s =>
        match jsonParse (replChar '\'' '"' (removeChar '\n' s)) with
        | some v => v
        | none => vArr []
    | vArr xs => vArr xs
    | _ => vArr []

/-- The element conversion of processPhotos (line 97): reading the name
property of a null element throws a TypeError, which escapes processPhotos
(modelled as the error case); an object or array with a truthy name yields
that name and everything else is rendered with String. -/
def processElem : JSVal → Except String JSVal
  | vNull => .error "TypeError: Cannot read properties of null"
  | p =>
      if p.isObjectTy then
        let n := p.propGet "name"
        .ok (if truthy n then n else vStr (jsToString p))
      else .ok (vStr (jsToString p))

/-- processPhotos applied pointwise, stopping at the first throwing
element as Array.prototype.map does. -/
def processList : List JSVal → Except String (List JSVal)
  | [] => .ok []
  | p :: ps => do
      let v ← processElem p
      let vs ← processList ps
      pure (v :: vs)

/-- Lines 84-100: falsy input gives the empty array, a string is
JSON.parsed with failure caught into the empty array, then an array is
mapped through processElem and a non-array gives the empty array. -/
def processPhotos (photosData : JSVal) : Except String JSVal :=
  if ¬ truthy photosData then .ok (vArr [])
  else
    let step : Option JSVal := match photosData with
      | vStr s => jsonParse s
      | v => some v
    match step with
    | none => .ok (vArr [])
    | some (vArr xs) => (processList xs).map vArr
    | some _ => .ok (vArr [])

/-- The full photos treatment of the POST /api/audits handler: the inline
normalization of lines 112-188 followed by fixPhotosField (line 195) and
processPhotos (line 196). -/
def handlerPhotosE (v : JSVal) : Except String JSVal :=
  processPhotos (fixPhotosField (photosToJS (normalizePhotos v)))

/-! ### The POST /api/audits handler (src/server.js lines 103-204) -/

/-- The sanitized audit fields the handler computes before persisting; the
remaining body fields pass through unchanged and carry no claim. -/
structure SanitizedAudit where
  id : JNum
  photos : JSVal
  totalTeachers : JNum
  totalStudents : JNum
  latitude : JSVal
  longitude : JSVal
deriving Repr

/-- Lines 190-191: Number(x) || 0. -/
def numOrZero (n : JNum) : JNum :=
  if jnumTruthy n then n else .q 0

/-- Lines 192-193: a value that is not undefined, null or the empty string
coerces with Number, otherwise the field becomes the explicit null. -/
def geoCoerce (v : JSVal) : JSVal :=
  match v with
  | vUndefined => vNull
  | vNull => vNull
  | vStr s => if s = "" then vNull else vNum (toNumber (vStr s))
  | v => vNum (toNumber v)

/-- Outcome of the single-audit handler: the 400 rejection, a successful
save of the sanitized audit, or the 500 path when the handler body throws
inside the outer try. -/
inductive PostAuditResult where
  | reject (msg : String)
  | saved (a : SanitizedAudit)
  | serverError (msg : String)
deriving Repr

/-- The rejection message of line 108. -/
def missingIdMsg : String := "Missing or invalid id (must be a unique number)"

/-- The body of POST /api/audits on a readable request body: a falsy or
NaN-coercing id is rejected with 400 (line 107); otherwise every field is
coerced as in lines 110 and 189-196 and the audit is saved. -/
def postAuditCore (body : JSVal) : PostAuditResult :=
  let idv := body.propGet "id"
  if ¬ truthy idv ∨ toNumber idv = JNum.nan then .reject missingIdMsg
  else
    match handlerPhotosE (body.propGet "photos") with
    | .error e => .serverError e
    | .ok ph =>
        .saved
          { id := toNumber idv
            photos := ph
            totalTeachers := numOrZero (toNumber (body.propGet "totalTeachers"))
            totalStudents := numOrZero (toNumber (body.propGet "totalStudents"))
            latitude := geoCoerce (body.propGet "latitude")
            longitude := geoCoerce (body.propGet "longitude") }

/-- POST /api/audits (lines 103-204): reading any property of a null or
undefined body throws into the 500 path, else the handler body runs. -/
def postAudit (body : JSVal) : PostAuditResult :=
  match body with
  | vNull => .serverError "TypeError: Cannot read properties of null"
  | vUndefined => .serverError "TypeError: Cannot read properties of undefined"
  | body => postAuditCore body

/-! ### The POST /api/sync handler (src/server.js lines 207-312) -/

/-- Reading the id property of a sync payload: on null or undefined the
read of line 214 throws out of the filter callback. -/
def payloadId (a : JSVal) : Except String JNum :=
  match a with
  | vNull => .error "TypeError: Cannot read properties of null"
  | vUndefined => .error "TypeError: Cannot read properties of undefined"
  | a => .ok (toNumber (a.propGet "id"))

/-- The filter of line 214: drop every payload whose Number-coerced id is
already in the stored id set (a JS Set, hence SameValueZero). -/
def freshFilter (ids : List JNum) : List JSVal → Except String (List JSVal)
  | [] => .ok []
  | a :: as => do
      let n ← payloadId a
      let rest ← freshFilter ids as
      if hasIdSVZ ids n then pure rest else pure (a :: rest)

/-- The field coercions and photo treatment of one sync payload (lines
216-303): the same pipeline as the single-audit handler, with
processPhotos applied a second time in the returned object of line 303. -/
def sanitizeCore (a : JSVal) : Except String SanitizedAudit := do
  let ph ← handlerPhotosE (a.propGet "photos")
  let ph2 ← processPhotos ph
  pure
    { id := toNumber (a.propGet "id")
      photos := ph2
      totalTeachers := numOrZero (toNumber (a.propGet "totalTeachers"))
      totalStudents := numOrZero (toNumber (a.propGet "totalStudents"))
      latitude := geoCoerce (a.propGet "latitude")
      longitude := geoCoerce (a.propGet "longitude") }

/-- The per-payload sanitization of lines 214-303; assigning fields of a
null or undefined payload throws. -/
def sanitizeSyncAudit (a : JSVal) : Except String SanitizedAudit :=
  match a with
  | vNull => .error "TypeError: Cannot set properties of null"
  | vUndefined => .error "TypeError: Cannot set properties of undefined"
  | a => sanitizeCore a

/-- Sequential sanitization of the fresh payloads, stopping at the first
throwing payload as Array.prototype.map does. -/
def sanitizeAll : List JSVal → Except String (List SanitizedAudit)
  | [] => .ok []
  | a :: as => do
      let s ← sanitizeSyncAudit a
      let rest ← sanitizeAll as
      pure (s :: rest)

/-- Outcome of the bulk-sync handler: the 400 rejection when the body has
no audits array, a success carrying the batch handed to insertMany with
the response message and the post-insert document count, or the 500 path. -/
inductive SyncResult where
  | badRequest
  | okRes (newAudits : List SanitizedAudit) (message : String) (totalAudits : Nat)
  | errorRes (msg : String)
deriving Repr

/-- POST /api/sync (lines 207-312).  The store is modelled by the list of
ids of the already persisted audits, so the document count after the batch
insert is the length of that list plus the batch size. -/
def postSync (ids : List JNum) (body : JSVal) : SyncResult :=
  match body with
  | vNull => .errorRes "TypeError: Cannot destructure null"
  | vUndefined => .errorRes "TypeError: Cannot destructure undefined"
  | _ =>
    match body.propGet "audits" with
    | vArr as =>
        match freshFilter ids as with
        | .error e => .errorRes e
        | .ok fresh =>
            match sanitizeAll fresh with
            | .error e => .errorRes e
            | .ok newAudits =>
                .okRes newAudits
                  ("Synced " ++ toString newAudits.length ++ " new audits")
                  (ids.length + newAudits.length)
    | _ => .badRequest

/-! ### Statement vocabulary for the corrected claims -/

/-- Modelled from the spec (claim C3 wording): the element-wise outcome
the spec describes for array inputs — a non-empty string element becomes
a name-only record, an object element with a non-empty string name keeps
its fields with empty-string defaults, and an element that cannot yield a
non-empty name is dropped on its own. -/
def elemOutcome : JSVal → Option PhotoRec
  | vStr s => if s = "" then none else some ⟨vStr s, vStr "", vStr ""⟩
  | e =>
      match e.propGet "name" with
      | vStr s =>
          if s = "" then none
          else some ⟨vStr s, jsOr (e.propGet "data") (vStr ""),
                     jsOr (e.propGet "type") (vStr "")⟩
      | _ => none

/-- Modelled from the spec (claim C5 wording): normalization of a
bracket-shaped string parses it as JSON after replacing single quotes
with double quotes AND stripping newline characters; on an array result
the array branch continues, otherwise the semicolon fallback runs. -/
def c5ClaimedRecovery (s : String) : List PhotoRec :=
  match jsonParse (removeChar '\n' (replChar '\'' '"' (jsTrim s))) with
  | some (vArr xs) => normalizePhotos (vArr xs)
  | _ => normalizePhotos (vArr (semiSplitRecs (jsTrim s)))

/-! ### Structural lemmas about the normalization pipeline -/

/-- Every field a produced record can carry in data or type position:
either truthy, or the empty-string default. -/
def goodField (d : JSVal) : Prop :=
  truthy d = true ∨ d = vStr ""

/-- The invariant of produced records: the name is a non-empty string and
data and type are truthy or the empty-string default. -/
def goodRec (r : PhotoRec) : Prop :=
  (∃ s, r.name = vStr s ∧ s ≠ "") ∧ goodField r.data ∧ goodField r.type

lemma keepRec_name {r : PhotoRec} (h : keepRec r = true) :
    ∃ s, r.name = vStr s ∧ s ≠ "" := by
  unfold keepRec at h
  cases hn : r.name <;> rw [hn] at h <;> simp_all

lemma jsOr_goodField (a : JSVal) : goodField (jsOr a (vStr "")) := by
  unfold jsOr goodField
  by_cases h : truthy a = true <;> simp [h]

lemma jsOr_of_goodField {d : JSVal} (h : goodField d) : jsOr d (vStr "") = d := by
  rcases h with h | h
  · simp [jsOr, h]
  · subst h; rfl

lemma photoOfJS_good {p : JSVal} {r : PhotoRec} (h : photoOfJS p = some r) :
    goodField r.data ∧ goodField r.type := by
  cases p with
  | vStr s =>
      have e : photoOfJS (vStr s) = some ⟨vStr s, vStr "", vStr ""⟩ := rfl
      rw [e] at h
      injection h with h2
      rw [← h2]
      exact ⟨Or.inr rfl, Or.inr rfl⟩
  | vArr xs =>
      have e : photoOfJS (vArr xs) =
          some ⟨jsOr ((vArr xs).propGet "name") (vStr ""),
                jsOr ((vArr xs).propGet "data") (vStr ""),
                jsOr ((vArr xs).propGet "type") (vStr "")⟩ := rfl
      rw [e] at h
      injection h with h2
      rw [← h2]
      exact ⟨jsOr_goodField ((vArr xs).propGet "data"),
             jsOr_goodField ((vArr xs).propGet "type")⟩
  | vObj fs =>
      have e : photoOfJS (vObj fs) =
          some ⟨jsOr ((vObj fs).propGet "name") (vStr ""),
                jsOr ((vObj fs).propGet "data") (vStr ""),
                jsOr ((vObj fs).propGet "type") (vStr "")⟩ := rfl
      rw [e] at h
      injection h with h2
      rw [← h2]
      exact ⟨jsOr_goodField ((vObj fs).propGet "data"),
             jsOr_goodField ((vObj fs).propGet "type")⟩
  | vNull => exact Option.noConfusion h
  | vUndefined => exact Option.noConfusion h
  | vBool b => exact Option.noConfusion h
  | vNum n => exact Option.noConfusion h

lemma photosConvert_mem {xs : List JSVal} {r : PhotoRec} (h : r ∈ photosConvert xs) :
    ∃ p ∈ xs, photoOfJS p = some r ∧ keepRec r = true := by
  unfold photosConvert at h
  rw [List.mem_filterMap] at h
  obtain ⟨p, hp, hval⟩ := h
  refine ⟨p, hp, ?_⟩
  unfold convStep at hval
  cases hop : photoOfJS p with
  | none => rw [hop] at hval; simp at hval
  | some r2 =>
      rw [hop] at hval
      by_cases hk : keepRec r2 = true
      · simp [hk] at hval; subst hval; exact ⟨rfl, hk⟩
      · simp [hk] at hval

/-- Every record produced by the normalization routine satisfies the
record invariant. -/
lemma normalizePhotos_good {v : JSVal} {r : PhotoRec} (h : r ∈ normalizePhotos v) :
    goodRec r := by
  obtain ⟨p, _, hop, hk⟩ := photosConvert_mem h
  exact ⟨keepRec_name hk, photoOfJS_good hop⟩

lemma validElem_recToJS {r : PhotoRec} (h : ∃ s, r.name = vStr s ∧ s ≠ "") :
    validElem (recToJS r) = true := by
  obtain ⟨s, hs, -⟩ := h
  unfold validElem
  rw [show (recToJS r).propGet "name" = r.name from rfl, hs]
  rfl

lemma mapStrToRec_recs (l : List PhotoRec) :
    mapStrToRec (l.map recToJS) = l.map recToJS := by
  induction l with
  | nil => rfl
  | cons r t ih =>
      show strToRecElem (recToJS r) :: mapStrToRec (t.map recToJS)
          = recToJS r :: t.map recToJS
      rw [show strToRecElem (recToJS r) = recToJS r from rfl, ih]

lemma photosValidate_all {ys : List JSVal} (h : ys.all validElem = true) :
    photosValidate (vArr ys) = vArr ys := by
  by_cases hs : ys.all JSVal.isString = true <;> simp [photosValidate, hs, h]

lemma photosClean_recs (l : List PhotoRec) (h : ∀ r ∈ l, ∃ s, r.name = vStr s ∧ s ≠ "") :
    photosClean (vArr (l.map recToJS)) = l.map recToJS := by
  induction l with
  | nil => rfl
  | cons r t ih =>
      obtain ⟨s, hs, hne⟩ := h r (List.mem_cons_self r t)
      have hkeep : cleanKeep (recToJS r) = true := by
        rw [show cleanKeep (recToJS r) = truthy ((recToJS r).propGet "name") from rfl,
            show (recToJS r).propGet "name" = r.name from rfl, hs]
        simp [truthy, hne]
      have ih2 := ih (fun x hx => h x (List.mem_cons_of_mem _ hx))
      show ((recToJS r :: t.map recToJS).map cleanTrim).filter cleanKeep
          = recToJS r :: t.map recToJS
      rw [List.map_cons, show cleanTrim (recToJS r) = recToJS r from rfl,
          List.filter_cons, hkeep]
      rw [show ((t.map recToJS).map cleanTrim).filter cleanKeep
            = photosClean (vArr (t.map recToJS)) from rfl, ih2]
      simp

lemma photoOfJS_recToJS {r : PhotoRec} (h : goodRec r) :
    photoOfJS (recToJS r) = some r := by
  obtain ⟨⟨s, hs, hne⟩, hd, ht⟩ := h
  have e : photoOfJS (recToJS r) =
      some ⟨jsOr r.name (vStr ""), jsOr r.data (vStr ""), jsOr r.type (vStr "")⟩ := rfl
  rw [e, jsOr_of_goodField (Or.inl (by rw [hs]; simp [truthy, hne])),
      jsOr_of_goodField hd, jsOr_of_goodField ht]

lemma photosConvert_recs (l : List PhotoRec) (h : ∀ r ∈ l, goodRec r) :
    photosConvert (l.map recToJS) = l := by
  induction l with
  | nil => rfl
  | cons r t ih =>
      have hr := h r (List.mem_cons_self r t)
      have hk : keepRec r = true := by
        obtain ⟨⟨s, hs, hne⟩, -, -⟩ := hr
        unfold keepRec
        rw [hs]
        simp [hne]
      have hcs : convStep (recToJS r) = some r := by
        unfold convStep
        rw [photoOfJS_recToJS hr]
        simp [hk]
      have ih2 := ih (fun x hx => h x (List.mem_cons_of_mem _ hx))
      show List.filterMap convStep (recToJS r :: t.map recToJS) = r :: t
      rw [List.filterMap_cons, hcs]
      rw [show List.filterMap convStep (t.map recToJS)
            = photosConvert (t.map recToJS) from rfl, ih2]

/-- Normalization maps its own re-injected output to itself. -/
lemma normalizePhotos_glued (l : List PhotoRec) (h : ∀ r ∈ l, goodRec r) :
    normalizePhotos (photosToJS l) = l := by
  have hval : (l.map recToJS).all validElem = true := by
    rw [List.all_eq_true]
    intro x hx
    obtain ⟨r, hr, rfl⟩ := List.mem_map.mp hx
    exact validElem_recToJS (h r hr).1
  calc normalizePhotos (photosToJS l)
      = photosConvert (photosClean (photosValidate (vArr (mapStrToRec (l.map recToJS))))) :=
        rfl
    _ = photosConvert (photosClean (photosValidate (vArr (l.map recToJS)))) := by
        rw [mapStrToRec_recs]
    _ = photosConvert (photosClean (vArr (l.map recToJS))) := by
        rw [photosValidate_all hval]
    _ = photosConvert (l.map recToJS) := by
        rw [photosClean_recs l (fun r hr => (h r hr).1)]
    _ = l := photosConvert_recs l h

/-! ### Lemmas about processPhotos, the handler photo chain, and sync -/

lemma bind_ok {α β : Type} (x : α) (f : α → Except String β) :
    (Except.ok x >>= f : Except String β) = f x := rfl

lemma fixPhotosField_arr (xs : List JSVal) : fixPhotosField (vArr xs) = vArr xs := rfl

lemma processElem_rec {r : PhotoRec} (h : ∃ s, r.name = vStr s ∧ s ≠ "") :
    processElem (recToJS r) = .ok r.name := by
  obtain ⟨s, hs, hne⟩ := h
  have e : processElem (recToJS r)
      = .ok (if truthy r.name then r.name else vStr (jsToString (recToJS r))) := rfl
  rw [e, hs]
  simp [truthy, hne]

lemma processList_recs (l : List PhotoRec) (h : ∀ r ∈ l, ∃ s, r.name = vStr s ∧ s ≠ "") :
    processList (l.map recToJS) = .ok (l.map PhotoRec.name) := by
  induction l with
  | nil => rfl
  | cons r t ih =>
      have he := processElem_rec (h r (List.mem_cons_self r t))
      have ih2 := ih (fun x hx => h x (List.mem_cons_of_mem _ hx))
      show (processElem (recToJS r) >>= fun v =>
          processList (t.map recToJS) >>= fun vs => pure (v :: vs)) = _
      rw [he]
      simp only [bind_ok]
      rw [ih2]
      simp only [bind_ok]
      rfl

lemma processPhotos_recArr (l : List PhotoRec)
    (h : ∀ r ∈ l, ∃ s, r.name = vStr s ∧ s ≠ "") :
    processPhotos (vArr (l.map recToJS)) = .ok (vArr (l.map PhotoRec.name)) := by
  have e : processPhotos (vArr (l.map recToJS))
      = (processList (l.map recToJS)).map vArr := rfl
  rw [e, processList_recs l h]
  rfl

/-- What the full single-audit photo chain produces: the array of the
names of the normalized records. -/
lemma handlerPhotosE_char (v : JSVal) :
    handlerPhotosE v = .ok (vArr ((normalizePhotos v).map PhotoRec.name)) := by
  have hnames : ∀ r ∈ normalizePhotos v, ∃ s, r.name = vStr s ∧ s ≠ "" :=
    fun r hr => (normalizePhotos_good hr).1
  have e : handlerPhotosE v
      = processPhotos (fixPhotosField (vArr ((normalizePhotos v).map recToJS))) := rfl
  rw [e, fixPhotosField_arr]
  exact processPhotos_recArr _ hnames

lemma processElem_str (s : String) : processElem (vStr s) = .ok (vStr s) := rfl

lemma processList_strs (l : List JSVal) (h : ∀ x ∈ l, ∃ s, x = vStr s) :
    processList l = .ok l := by
  induction l with
  | nil => rfl
  | cons a t ih =>
      obtain ⟨s, rfl⟩ := h a (List.mem_cons_self a t)
      have ih2 := ih (fun x hx => h x (List.mem_cons_of_mem _ hx))
      show (processElem (vStr s) >>= fun v =>
          processList t >>= fun vs => pure (v :: vs)) = _
      rw [processElem_str]
      simp only [bind_ok]
      rw [ih2]
      simp only [bind_ok]
      rfl

lemma processPhotos_strArr (l : List JSVal) (h : ∀ x ∈ l, ∃ s, x = vStr s) :
    processPhotos (vArr l) = .ok (vArr l) := by
  have e : processPhotos (vArr l) = (processList l).map vArr := rfl
  rw [e, processList_strs l h]
  rfl

/-- What one sync payload sanitization produces on any payload value. -/
lemma sanitizeCore_char (a : JSVal) :
    sanitizeCore a = .ok
      { id := toNumber (a.propGet "id")
        photos := vArr ((normalizePhotos (a.propGet "photos")).map PhotoRec.name)
        totalTeachers := numOrZero (toNumber (a.propGet "totalTeachers"))
        totalStudents := numOrZero (toNumber (a.propGet "totalStudents"))
        latitude := geoCoerce (a.propGet "latitude")
        longitude := geoCoerce (a.propGet "longitude") } := by
  have hnames : ∀ x ∈ (normalizePhotos (a.propGet "photos")).map PhotoRec.name,
      ∃ s, x = vStr s := by
    intro x hx
    obtain ⟨r, hr, rfl⟩ := List.mem_map.mp hx
    obtain ⟨s, hs, -⟩ := (normalizePhotos_good hr).1
    exact ⟨s, hs⟩
  unfold sanitizeCore
  rw [handlerPhotosE_char]
  simp only [bind_ok]
  rw [processPhotos_strArr _ hnames]
  simp only [bind_ok]
  rfl

lemma sanitizeSync_ok (a : JSVal) (h1 : a ≠ vNull) (h2 : a ≠ vUndefined) :
    sanitizeSyncAudit a = sanitizeCore a := by
  cases a with
  | vNull => exact absurd rfl h1
  | vUndefined => exact absurd rfl h2
  | vBool b => rfl
  | vNum n => rfl
  | vStr s => rfl
  | vArr xs => rfl
  | vObj fs => rfl

lemma payloadId_ok (a : JSVal) (h1 : a ≠ vNull) (h2 : a ≠ vUndefined) :
    payloadId a = .ok (toNumber (a.propGet "id")) := by
  cases a with
  | vNull => exact absurd rfl h1
  | vUndefined => exact absurd rfl h2
  | vBool b => rfl
  | vNum n => rfl
  | vStr s => rfl
  | vArr xs => rfl
  | vObj fs => rfl

lemma freshFilter_ok (ids : List JNum) (as : List JSVal)
    (h : ∀ a ∈ as, a ≠ vNull ∧ a ≠ vUndefined) :
    freshFilter ids as
      = .ok (as.filter fun a => !hasIdSVZ ids (toNumber (a.propGet "id"))) := by
  induction as with
  | nil => rfl
  | cons a t ih =>
      obtain ⟨h1, h2⟩ := h a (List.mem_cons_self a t)
      have ih2 := ih (fun x hx => h x (List.mem_cons_of_mem _ hx))
      show (payloadId a >>= fun n => freshFilter ids t >>= fun rest =>
          if hasIdSVZ ids n then pure rest else pure (a :: rest)) = _
      rw [payloadId_ok a h1 h2]
      simp only [bind_ok]
      rw [ih2]
      simp only [bind_ok]
      by_cases hhas : hasIdSVZ ids (toNumber (a.propGet "id")) = true <;>
        simp [List.filter_cons, hhas, pure, Except.pure]

lemma sanitizeAll_forall (xs : List JSVal) (h : ∀ a ∈ xs, a ≠ vNull ∧ a ≠ vUndefined) :
    ∃ L, sanitizeAll xs = .ok L ∧
      List.Forall₂ (fun a s => sanitizeSyncAudit a = Except.ok s) xs L := by
  induction xs with
  | nil => exact ⟨[], rfl, List.Forall₂.nil⟩
  | cons a t ih =>
      obtain ⟨h1, h2⟩ := h a (List.mem_cons_self a t)
      obtain ⟨L, hL, hF⟩ := ih (fun x hx => h x (List.mem_cons_of_mem _ hx))
      obtain ⟨s, hsa⟩ : ∃ s, sanitizeSyncAudit a = .ok s :=
        ⟨_, by rw [sanitizeSync_ok a h1 h2, sanitizeCore_char]⟩
      refine ⟨s :: L, ?_, List.Forall₂.cons hsa hF⟩
      show (sanitizeSyncAudit a >>= fun x =>
          sanitizeAll t >>= fun rest => pure (x :: rest)) = _
      rw [hsa]
      simp only [bind_ok]
      rw [hL]
      simp only [bind_ok]
      rfl

/-! ### Characterization of the single-audit handler -/

lemma postAudit_nonNull (body : JSVal) (h1 : body ≠ vNull) (h2 : body ≠ vUndefined) :
    postAudit body = postAuditCore body := by
  cases body with
  | vNull => exact absurd rfl h1
  | vUndefined => exact absurd rfl h2
  | vBool b => rfl
  | vNum n => rfl
  | vStr s => rfl
  | vArr xs => rfl
  | vObj fs => rfl

lemma postAuditCore_char (body : JSVal) :
    postAuditCore body =
      (if ¬ truthy (body.propGet "id") = true ∨ toNumber (body.propGet "id") = JNum.nan
       then .reject missingIdMsg
       else .saved
          { id := toNumber (body.propGet "id")
            photos := vArr ((normalizePhotos (body.propGet "photos")).map PhotoRec.name)
            totalTeachers := numOrZero (toNumber (body.propGet "totalTeachers"))
            totalStudents := numOrZero (toNumber (body.propGet "totalStudents"))
            latitude := geoCoerce (body.propGet "latitude")
            longitude := geoCoerce (body.propGet "longitude") }) := by
  unfold postAuditCore
  by_cases hc : ¬ truthy (body.propGet "id") = true ∨ toNumber (body.propGet "id") = JNum.nan
  · rw [if_pos hc, if_pos hc]
  · rw [if_neg hc, if_neg hc, handlerPhotosE_char]

lemma geoCoerce_null {v : JSVal} (h : v = vUndefined ∨ v = vNull ∨ v = vStr "") :
    geoCoerce v = vNull := by
  rcases h with rfl | rfl | h
  · rfl
  · rfl
  · rw [h]; rfl

lemma geoCoerce_num {v : JSVal} (h1 : v ≠ vUndefined) (h2 : v ≠ vNull) (h3 : v ≠ vStr "") :
    geoCoerce v = vNum (toNumber v) := by
  cases v with
  | vNull => exact absurd rfl h2
  | vUndefined => exact absurd rfl h1
  | vStr s =>
      have hs : ¬ s = "" := fun hs => h3 (by rw [hs])
      show (if s = "" then vNull else vNum (toNumber (vStr s))) = vNum (toNumber (vStr s))
      rw [if_neg hs]
  | vBool b => rfl
  | vNum n => rfl
  | vArr xs => rfl
  | vObj fs => rfl

/-! ### Element-wise behavior of the array branch -/

lemma validElem_mkNameRec (q : String) : validElem (mkNameRec q) = true := rfl

lemma cleanTrim_mkNameRec (q : String) : cleanTrim (mkNameRec q) = mkNameRec q := rfl

lemma cleanKeep_mkNameRec (q : String) : cleanKeep (mkNameRec q) = decide (q ≠ "") := rfl

lemma convStep_mkNameRec {q : String} (hq : q ≠ "") :
    convStep (mkNameRec q) = some ⟨vStr q, vStr "", vStr ""⟩ := by
  unfold convStep
  rw [show photoOfJS (mkNameRec q)
        = some ⟨jsOr (vStr q) (vStr ""), jsOr (vStr "") (vStr ""), jsOr (vStr "") (vStr "")⟩
      from rfl,
      show jsOr (vStr "") (vStr "") = vStr "" from rfl,
      jsOr_of_goodField (Or.inl (by simp [truthy, hq]))]
  have hk : keepRec ⟨vStr q, vStr "", vStr ""⟩ = true := by
    unfold keepRec
    simp [hq]
  show (if keepRec ⟨vStr q, vStr "", vStr ""⟩ = true
        then some (⟨vStr q, vStr "", vStr ""⟩ : PhotoRec) else none)
      = some ⟨vStr q, vStr "", vStr ""⟩
  rw [hk]
  simp

lemma clean_convert_nameRecs (qs : List String) :
    photosConvert (photosClean (vArr (qs.map mkNameRec)))
      = (qs.filter (fun q => q ≠ "")).map (fun q => ⟨vStr q, vStr "", vStr ""⟩) := by
  induction qs with
  | nil => rfl
  | cons q t ih =>
      have hstep : photosClean (vArr ((q :: t).map mkNameRec))
          = (if (decide (q ≠ "")) = true then
                mkNameRec q :: photosClean (vArr (t.map mkNameRec))
             else photosClean (vArr (t.map mkNameRec))) := by
        show ((mkNameRec q :: t.map mkNameRec).map cleanTrim).filter cleanKeep = _
        rw [List.map_cons, cleanTrim_mkNameRec, List.filter_cons, cleanKeep_mkNameRec]
        rfl
      by_cases hq : q = ""
      · subst hq
        rw [hstep, if_neg (by decide), ih, List.filter_cons]
        simp
      · rw [hstep]
        have hd : (decide (q ≠ "")) = true := by simp [hq]
        rw [if_pos hd]
        show List.filterMap convStep (mkNameRec q :: photosClean (vArr (t.map mkNameRec)))
            = _
        rw [List.filterMap_cons, convStep_mkNameRec hq]
        rw [show List.filterMap convStep (photosClean (vArr (t.map mkNameRec)))
              = photosConvert (photosClean (vArr (t.map mkNameRec))) from rfl, ih,
            List.filter_cons]
        simp [hq]

lemma photosStage1_semis (s : String) (h1 : ¬ jsTrim s = "")
    (h2 : (strStartsWith (jsTrim s) '[' && strEndsWith (jsTrim s) ']') = false) :
    photosStage1 (vStr s) = vArr (semiSplitRecs (jsTrim s)) := by
  simp [photosStage1, h1, h2]

/-! ### Element-wise characterization of arrays under the array branch -/

lemma strToRecElem_nonstring {e : JSVal} (h : JSVal.isString e = false) :
    strToRecElem e = e := by
  cases e with
  | vStr s => simp [JSVal.isString] at h
  | vNull => rfl
  | vUndefined => rfl
  | vBool b => rfl
  | vNum n => rfl
  | vArr xs => rfl
  | vObj fs => rfl

lemma validElem_strToRecElem {e : JSVal} (h : validElem e = true) :
    validElem (strToRecElem e) = true := by
  cases e with
  | vStr s => exact validElem_mkNameRec s
  | vNull => exact h
  | vUndefined => exact h
  | vBool b => exact h
  | vNum n => exact h
  | vArr xs => exact h
  | vObj fs => exact h

lemma validElem_obj_name {fs : List (String × JSVal)} (h : validElem (vObj fs) = true) :
    ∃ s, (vObj fs).propGet "name" = vStr s := by
  cases hpn : (vObj fs).propGet "name" with
  | vStr s => exact ⟨s, rfl⟩
  | vNull =>
      rw [show validElem (vObj fs) = ((vObj fs).propGet "name").isString from by
            simp [validElem, JSVal.isString, JSVal.isObjectTy, JSVal.isNull], hpn] at h
      simp [JSVal.isString] at h
  | vUndefined =>
      rw [show validElem (vObj fs) = ((vObj fs).propGet "name").isString from by
            simp [validElem, JSVal.isString, JSVal.isObjectTy, JSVal.isNull], hpn] at h
      simp [JSVal.isString] at h
  | vBool b =>
      rw [show validElem (vObj fs) = ((vObj fs).propGet "name").isString from by
            simp [validElem, JSVal.isString, JSVal.isObjectTy, JSVal.isNull], hpn] at h
      simp [JSVal.isString] at h
  | vNum n =>
      rw [show validElem (vObj fs) = ((vObj fs).propGet "name").isString from by
            simp [validElem, JSVal.isString, JSVal.isObjectTy, JSVal.isNull], hpn] at h
      simp [JSVal.isString] at h
  | vArr ys =>
      rw [show validElem (vObj fs) = ((vObj fs).propGet "name").isString from by
            simp [validElem, JSVal.isString, JSVal.isObjectTy, JSVal.isNull], hpn] at h
      simp [JSVal.isString] at h
  | vObj gs =>
      rw [show validElem (vObj fs) = ((vObj fs).propGet "name").isString from by
            simp [validElem, JSVal.isString, JSVal.isObjectTy, JSVal.isNull], hpn] at h
      simp [JSVal.isString] at h

lemma convStep_obj {fs : List (String × JSVal)} {s : String}
    (hn : (vObj fs).propGet "name" = vStr s) (hs : s ≠ "") :
    convStep (vObj fs)
      = some ⟨vStr s, jsOr ((vObj fs).propGet "data") (vStr ""),
              jsOr ((vObj fs).propGet "type") (vStr "")⟩ := by
  have hk : keepRec ⟨vStr s, jsOr ((vObj fs).propGet "data") (vStr ""),
      jsOr ((vObj fs).propGet "type") (vStr "")⟩ = true := by
    unfold keepRec
    simp [hs]
  unfold convStep
  rw [show photoOfJS (vObj fs)
        = some ⟨jsOr ((vObj fs).propGet "name") (vStr ""),
                jsOr ((vObj fs).propGet "data") (vStr ""),
                jsOr ((vObj fs).propGet "type") (vStr "")⟩ from rfl,
      hn, jsOr_of_goodField (Or.inl (by simp [truthy, hs]))]
  show (if keepRec ⟨vStr s, jsOr ((vObj fs).propGet "data") (vStr ""),
          jsOr ((vObj fs).propGet "type") (vStr "")⟩ = true
        then some (⟨vStr s, jsOr ((vObj fs).propGet "data") (vStr ""),
          jsOr ((vObj fs).propGet "type") (vStr "")⟩ : PhotoRec) else none)
      = some ⟨vStr s, jsOr ((vObj fs).propGet "data") (vStr ""),
          jsOr ((vObj fs).propGet "type") (vStr "")⟩
  rw [hk]
  simp

lemma elemOutcome_str (s : String) :
    elemOutcome (vStr s) = if s = "" then none else some ⟨vStr s, vStr "", vStr ""⟩ := rfl

lemma elemOutcome_obj {fs : List (String × JSVal)} {s : String}
    (hn : (vObj fs).propGet "name" = vStr s) :
    elemOutcome (vObj fs)
      = (if s = "" then none
         else some ⟨vStr s, jsOr ((vObj fs).propGet "data") (vStr ""),
                    jsOr ((vObj fs).propGet "type") (vStr "")⟩) := by
  show (match (vObj fs).propGet "name" with
        | vStr s =>
            if s = "" then none
            else some (⟨vStr s, jsOr ((vObj fs).propGet "data") (vStr ""),
                       jsOr ((vObj fs).propGet "type") (vStr "")⟩ : PhotoRec)
        | _ => none) = _
  rw [hn]

lemma clean_convert_mapped (xs : List JSVal) (h : xs.all validElem = true) :
    photosConvert (photosClean (vArr (mapStrToRec xs))) = xs.filterMap elemOutcome := by
  induction xs with
  | nil => rfl
  | cons e t ih =>
      rw [List.all_cons, Bool.and_eq_true] at h
      obtain ⟨he, ht⟩ := h
      have ih2 := ih ht
      cases e with
      | vStr s =>
          by_cases hs : s = ""
          · subst hs
            have hstep : photosClean (vArr (mapStrToRec (vStr "" :: t)))
                = photosClean (vArr (mapStrToRec t)) := by
              show ((mkNameRec "" :: mapStrToRec t).map cleanTrim).filter cleanKeep = _
              rw [List.map_cons, cleanTrim_mkNameRec, List.filter_cons, cleanKeep_mkNameRec,
                  if_neg (by decide)]
              rfl
            rw [hstep, ih2]
            conv_rhs => rw [List.filterMap_cons]
            rw [show elemOutcome (vStr "") = none from rfl]
          · have hstep : photosClean (vArr (mapStrToRec (vStr s :: t)))
                = mkNameRec s :: photosClean (vArr (mapStrToRec t)) := by
              show ((mkNameRec s :: mapStrToRec t).map cleanTrim).filter cleanKeep = _
              rw [List.map_cons, cleanTrim_mkNameRec, List.filter_cons, cleanKeep_mkNameRec,
                  if_pos (by simp [hs])]
              rfl
            rw [hstep]
            show List.filterMap convStep (mkNameRec s :: photosClean (vArr (mapStrToRec t)))
                = _
            rw [List.filterMap_cons, convStep_mkNameRec hs]
            rw [show List.filterMap convStep (photosClean (vArr (mapStrToRec t)))
                  = photosConvert (photosClean (vArr (mapStrToRec t))) from rfl, ih2]
            conv_rhs => rw [List.filterMap_cons]
            rw [elemOutcome_str, if_neg hs]
      | vObj fs =>
          obtain ⟨s, hn⟩ := validElem_obj_name he
          have hck : cleanKeep (vObj fs) = truthy ((vObj fs).propGet "name") := rfl
          by_cases hs : s = ""
          · have hfalse : cleanKeep (vObj fs) = false := by
              rw [hck, hn, hs]; rfl
            have hstep : photosClean (vArr (mapStrToRec (vObj fs :: t)))
                = photosClean (vArr (mapStrToRec t)) := by
              show ((vObj fs :: mapStrToRec t).map cleanTrim).filter cleanKeep = _
              rw [List.map_cons, show cleanTrim (vObj fs) = vObj fs from rfl,
                  List.filter_cons, hfalse]
              simp
              rfl
            rw [hstep, ih2]
            conv_rhs => rw [List.filterMap_cons]
            rw [elemOutcome_obj hn, if_pos hs]
          · have htrue : cleanKeep (vObj fs) = true := by
              rw [hck, hn]; simp [truthy, hs]
            have hstep : photosClean (vArr (mapStrToRec (vObj fs :: t)))
                = vObj fs :: photosClean (vArr (mapStrToRec t)) := by
              show ((vObj fs :: mapStrToRec t).map cleanTrim).filter cleanKeep = _
              rw [List.map_cons, show cleanTrim (vObj fs) = vObj fs from rfl,
                  List.filter_cons, htrue]
              simp
              rfl
            rw [hstep]
            show List.filterMap convStep (vObj fs :: photosClean (vArr (mapStrToRec t))) = _
            rw [List.filterMap_cons, convStep_obj hn hs]
            rw [show List.filterMap convStep (photosClean (vArr (mapStrToRec t)))
                  = photosConvert (photosClean (vArr (mapStrToRec t))) from rfl, ih2]
            conv_rhs => rw [List.filterMap_cons]
            rw [elemOutcome_obj hn, if_neg hs]
      | vNull => simp [validElem, JSVal.isString, JSVal.isObjectTy, JSVal.isNull] at he
      | vUndefined => simp [validElem, JSVal.isString, JSVal.isObjectTy, JSVal.isNull] at he
      | vBool b => simp [validElem, JSVal.isString, JSVal.isObjectTy, JSVal.isNull] at he
      | vNum n => simp [validElem, JSVal.isString, JSVal.isObjectTy, JSVal.isNull] at he
      | vArr ys =>
          rw [show validElem (vArr ys) = false from rfl] at he
          cases he

/-- When some element fails the validation predicate, the whole array is
discarded by lines 159-165. -/
lemma validate_nuke (xs : List JSVal) (hfail : xs.all validElem = false) :
    normalizePhotos (vArr xs) = [] := by
  obtain ⟨e, he, hv⟩ : ∃ e ∈ xs, ¬ validElem e = true := by
    by_contra hc
    push_neg at hc
    rw [List.all_eq_true.mpr hc] at hfail
    cases hfail
  have hestr : JSVal.isString e = false := by
    cases e with
    | vStr s => exact absurd rfl hv
    | vNull => rfl
    | vUndefined => rfl
    | vBool b => rfl
    | vNum n => rfl
    | vArr ys => rfl
    | vObj fs => rfl
  have heq : strToRecElem e = e := strToRecElem_nonstring hestr
  have hmem : e ∈ mapStrToRec xs := by
    rw [← heq]
    exact List.mem_map_of_mem _ he
  have h1 : ¬ (mapStrToRec xs).all JSVal.isString = true := by
    intro hall
    rw [List.all_eq_true] at hall
    rw [hall e hmem] at hestr
    cases hestr
  have h2 : ¬ (mapStrToRec xs).all validElem = true := by
    intro hall
    rw [List.all_eq_true] at hall
    exact hv (hall e hmem)
  have hval : photosValidate (vArr (mapStrToRec xs)) = vArr [] := by
    show (if (mapStrToRec xs).all JSVal.isString = true then vArr (mapStrToRec xs)
          else if ¬ (mapStrToRec xs).all validElem = true then (vArr [] : JSVal)
          else vArr (mapStrToRec xs)) = vArr []
    rw [if_neg h1, if_pos h2]
  show photosConvert (photosClean (photosValidate (photosStage2 (photosStage1 (vArr xs)))))
      = []
  rw [show photosStage2 (photosStage1 (vArr xs)) = vArr (mapStrToRec xs) from rfl, hval]
  rfl

/-! ### The claims -/

/-- C1: for every input accepted by the photo normalization routine, the
output is an ordered sequence of zero or more photo records, and every
record carries a non-empty string name; entries that cannot yield a
non-empty name are dropped silently. -/
theorem C1_output_records_nonempty_names (v : JSVal) (r : PhotoRec)
    (h : r ∈ normalizePhotos v) :
    ∃ s, r.name = vStr s ∧ s ≠ "" :=
  (normalizePhotos_good h).1

theorem C1_witness :
    ∃ s, (⟨vStr "a.jpg", vStr "", vStr ""⟩ : PhotoRec).name = vStr s ∧ s ≠ "" :=
  C1_output_records_nonempty_names (vArr [vStr "a.jpg"]) ⟨vStr "a.jpg", vStr "", vStr ""⟩
    (List.mem_singleton_self _)

/-- C2: for every input value of the accepted union the photo treatment of
the handler terminates normally and never raises an error to the caller;
on a top-level null, undefined, boolean or number it degrades to the empty
sequence. -/
theorem C2_never_raises (v : JSVal) :
    (∃ l, handlerPhotosE v = Except.ok l) ∧
    ((v = vNull ∨ v = vUndefined ∨ (∃ b, v = vBool b) ∨ (∃ n, v = vNum n)) →
      handlerPhotosE v = Except.ok (vArr [])) := by
  constructor
  · exact ⟨_, handlerPhotosE_char v⟩
  · rintro (rfl | rfl | ⟨b, rfl⟩ | ⟨n, rfl⟩)
    · exact (handlerPhotosE_char vNull).trans rfl
    · exact (handlerPhotosE_char vUndefined).trans rfl
    · exact (handlerPhotosE_char (vBool b)).trans rfl
    · exact (handlerPhotosE_char (vNum n)).trans rfl

theorem C2_witness : handlerPhotosE (vNum (JNum.q 5)) = Except.ok (vArr []) :=
  (C2_never_raises (vNum (JNum.q 5))).2 (Or.inr (Or.inr (Or.inr ⟨JNum.q 5, rfl⟩)))

/-- C3 counterexample: the claim predicts that a non-string non-object
array element is discarded individually, leaving the other elements
intact; on the input with one good string and the number 42 the code
instead discards the whole array. -/
theorem C3_counterexample :
    normalizePhotos (vArr [vStr "a.jpg", vNum (JNum.q 42)]) = [] ∧
    normalizePhotos (vArr [vStr "a.jpg", vNum (JNum.q 42)])
      ≠ [⟨vStr "a.jpg", vStr "", vStr ""⟩] := by
  refine ⟨rfl, ?_⟩
  intro h
  have h2 : ([] : List PhotoRec) = [⟨vStr "a.jpg", vStr "", vStr ""⟩] := h
  exact List.noConfusion h2

/-- C3 amended: on an array input whose elements are all strings or
non-null objects with a string-valued name, each element maps through the
element-wise outcome (strings wrap, objects keep fields with empty-string
defaults, empty names drop) in order; but if any element fails that shape,
the whole sequence is discarded and the result is empty. -/
theorem C3_amended (xs : List JSVal) :
    (xs.all validElem = true → normalizePhotos (vArr xs) = xs.filterMap elemOutcome) ∧
    (xs.all validElem = false → normalizePhotos (vArr xs) = []) := by
  constructor
  · intro hall
    have hmapped : (mapStrToRec xs).all validElem = true := by
      rw [List.all_eq_true] at hall ⊢
      intro x hx
      obtain ⟨e, he, rfl⟩ := List.mem_map.mp hx
      exact validElem_strToRecElem (hall e he)
    show photosConvert (photosClean (photosValidate (photosStage2 (photosStage1 (vArr xs)))))
        = _
    rw [show photosStage2 (photosStage1 (vArr xs)) = vArr (mapStrToRec xs) from rfl,
        photosValidate_all hmapped]
    exact clean_convert_mapped xs hall
  · exact validate_nuke xs

theorem C3_witness :
    normalizePhotos (vArr [vStr "a.png"]) = [⟨vStr "a.png", vStr "", vStr ""⟩] :=
  ((C3_amended [vStr "a.png"]).1 rfl).trans rfl

/-- C4 counterexample: the spec example claims the whitespace-only object
name is trimmed and dropped; the code keeps it, because the trimming pass
of line 168 touches only string elements and none remain at that stage. -/
theorem C4_counterexample :
    normalizePhotos (vArr [vObj [("name", vStr "")], vObj [("name", vStr "  ")],
        vStr "valid.png"])
      = [⟨vStr "  ", vStr "", vStr ""⟩, ⟨vStr "valid.png", vStr "", vStr ""⟩] ∧
    normalizePhotos (vArr [vObj [("name", vStr "")], vObj [("name", vStr "  ")],
        vStr "valid.png"])
      ≠ [⟨vStr "valid.png", vStr "", vStr ""⟩] := by
  refine ⟨rfl, ?_⟩
  intro h
  exact absurd (congrArg List.length h) (by decide)

/-- C4 amended: the post-pass discards records whose resolved name is the
empty string and preserves the order of the survivors, but object names
are not trimmed, so a whitespace-only name survives: on the spec example
the output keeps both the whitespace name and the valid name in order. -/
theorem C4_amended :
    normalizePhotos (vArr [vObj [("name", vStr "")], vObj [("name", vStr "  ")],
        vStr "valid.png"])
      = [⟨vStr "  ", vStr "", vStr ""⟩, ⟨vStr "valid.png", vStr "", vStr ""⟩] := rfl

/-- C5 counterexample: the claim says bracket-shaped strings are parsed
after quote replacement AND newline stripping; the code never strips
newlines on this path, so on a bracket string with a raw newline inside a
quoted name the claimed recovery and the code disagree. -/
theorem C5_counterexample :
    c5ClaimedRecovery "['a\nb']" = [⟨vStr "ab", vStr "", vStr ""⟩] ∧
    normalizePhotos (vStr "['a\nb']") = [⟨vStr "['a\nb']", vStr "", vStr ""⟩] ∧
    c5ClaimedRecovery "['a\nb']" ≠ normalizePhotos (vStr "['a\nb']") := by
  refine ⟨rfl, rfl, ?_⟩
  intro h
  have h2 : ([⟨vStr "ab", vStr "", vStr ""⟩] : List PhotoRec)
      = [⟨vStr "['a\nb']", vStr "", vStr ""⟩] := h
  injection h2 with hh ht
  injection hh with hn hd hy
  injection hn with hsx
  exact absurd hsx (by decide)

/-- C5 amended: a bracket-shaped single-quoted JSON string is recovered by
replacing single quotes with double quotes and parsing (no newline
stripping happens on this path): the spec example with single-quoted JSON
yields exactly the one name-only record. -/
theorem C5_amended :
    normalizePhotos (vStr "[\x7b'name':'a.jpg'\x7d]")
      = [⟨vStr "a.jpg", vStr "", vStr ""⟩] := rfl

/-- C6: a non-empty string input that after trimming does not both start
with an opening bracket and end with a closing bracket is split on
semicolons; each piece is trimmed, empty pieces are dropped, and each
surviving piece becomes a name-only record, in order. -/
theorem C6_semicolon_split (s : String) (h1 : ¬ jsTrim s = "")
    (h2 : (strStartsWith (jsTrim s) '[' && strEndsWith (jsTrim s) ']') = false) :
    normalizePhotos (vStr s)
      = (((jsSplit ';' (jsTrim s)).map jsTrim).filter (fun p => p ≠ "")).map
          (fun p => (⟨vStr p, vStr "", vStr ""⟩ : PhotoRec)) := by
  have hval : (semiSplitRecs (jsTrim s)).all validElem = true := by
    rw [List.all_eq_true]
    intro x hx
    obtain ⟨piece, hp, rfl⟩ := List.mem_map.mp hx
    exact validElem_mkNameRec _
  have hsem : semiSplitRecs (jsTrim s)
      = ((jsSplit ';' (jsTrim s)).map jsTrim).map mkNameRec := by
    unfold semiSplitRecs
    rw [List.map_map]
    rfl
  show photosConvert (photosClean (photosValidate (photosStage2 (photosStage1 (vStr s)))))
      = _
  rw [photosStage1_semis s h1 h2,
      show photosStage2 (vArr (semiSplitRecs (jsTrim s)))
        = vArr (semiSplitRecs (jsTrim s)) from rfl,
      photosValidate_all hval, hsem]
  exact clean_convert_nameRecs _

theorem C6_witness :
    normalizePhotos (vStr "a.jpg;b.png")
      = [⟨vStr "a.jpg", vStr "", vStr ""⟩, ⟨vStr "b.png", vStr "", vStr ""⟩] :=
  (C6_semicolon_split "a.jpg;b.png" (by decide) (by decide)).trans rfl

/-- C7 counterexample: the claim says the single-audit handler rejects
exactly when the id is absent or non-numeric; a payload whose id is the
number 0 is present and numeric, yet the handler rejects it, because the
check of line 107 tests JavaScript falsiness rather than absence. -/
theorem C7_counterexample :
    postAudit (vObj [("id", vNum (JNum.q 0))]) = PostAuditResult.reject missingIdMsg ∧
    (vObj [("id", vNum (JNum.q 0))]).propGet "id" ≠ vUndefined ∧
    toNumber ((vObj [("id", vNum (JNum.q 0))]).propGet "id") ≠ JNum.nan := by
  refine ⟨rfl, ?_, ?_⟩
  · intro h; exact JSVal.noConfusion h
  · intro h; exact JNum.noConfusion h

/-- C7 amended: the single-audit handler rejects exactly when the id is
falsy (absent, null, 0, empty string, NaN, false) or coerces to NaN with
Number; on acceptance totalTeachers and totalStudents coerce with Number
and fall back to 0 when the coercion is falsy, and latitude and longitude
coerce to a number unless the field is undefined, null or the empty
string, in which case they become the explicit null. -/
theorem C7_amended (body : JSVal) (hb1 : body ≠ vNull) (hb2 : body ≠ vUndefined) :
    ((¬ truthy (body.propGet "id") = true ∨ toNumber (body.propGet "id") = JNum.nan) →
        postAudit body = PostAuditResult.reject missingIdMsg) ∧
    (truthy (body.propGet "id") = true → ¬ toNumber (body.propGet "id") = JNum.nan →
      ∃ a, postAudit body = PostAuditResult.saved a
        ∧ a.id = toNumber (body.propGet "id")
        ∧ a.totalTeachers = (if jnumTruthy (toNumber (body.propGet "totalTeachers"))
            then toNumber (body.propGet "totalTeachers") else JNum.q 0)
        ∧ a.totalStudents = (if jnumTruthy (toNumber (body.propGet "totalStudents"))
            then toNumber (body.propGet "totalStudents") else JNum.q 0)
        ∧ ((body.propGet "latitude" = vUndefined ∨ body.propGet "latitude" = vNull ∨
              body.propGet "latitude" = vStr "") → a.latitude = vNull)
        ∧ (body.propGet "latitude" ≠ vUndefined → body.propGet "latitude" ≠ vNull →
              body.propGet "latitude" ≠ vStr "" →
              a.latitude = vNum (toNumber (body.propGet "latitude")))
        ∧ ((body.propGet "longitude" = vUndefined ∨ body.propGet "longitude" = vNull ∨
              body.propGet "longitude" = vStr "") → a.longitude = vNull)
        ∧ (body.propGet "longitude" ≠ vUndefined → body.propGet "longitude" ≠ vNull →
              body.propGet "longitude" ≠ vStr "" →
              a.longitude = vNum (toNumber (body.propGet "longitude")))) := by
  have hch : postAudit body = postAuditCore body := postAudit_nonNull body hb1 hb2
  constructor
  · intro hcond
    rw [hch, postAuditCore_char, if_pos hcond]
  · intro ht hnan
    have hcond : ¬ (¬ truthy (body.propGet "id") = true ∨
        toNumber (body.propGet "id") = JNum.nan) := by
      rintro (hc | hc)
      · exact hc ht
      · exact hnan hc
    refine ⟨{ id := toNumber (body.propGet "id")
              photos := vArr ((normalizePhotos (body.propGet "photos")).map PhotoRec.name)
              totalTeachers := numOrZero (toNumber (body.propGet "totalTeachers"))
              totalStudents := numOrZero (toNumber (body.propGet "totalStudents"))
              latitude := geoCoerce (body.propGet "latitude")
              longitude := geoCoerce (body.propGet "longitude") },
            ?_, rfl, rfl, rfl, ?_, ?_, ?_, ?_⟩
    · rw [hch, postAuditCore_char, if_neg hcond]
    · intro hcase; exact geoCoerce_null hcase
    · intro n1 n2 n3; exact geoCoerce_num n1 n2 n3
    · intro hcase; exact geoCoerce_null hcase
    · intro n1 n2 n3; exact geoCoerce_num n1 n2 n3

theorem C7_witness : postAudit (vObj []) = PostAuditResult.reject missingIdMsg :=
  (C7_amended (vObj []) (fun h => JSVal.noConfusion h)
    (fun h => JSVal.noConfusion h)).1 (Or.inl (by decide))

/-- C8: a bulk-sync request whose payloads are readable objects filters
out exactly those payloads whose Number-coerced identifier is already in
the store, sanitizes (and so normalizes the photos of) each remaining
payload in order, persists exactly that batch, and reports the count of
newly synced records and the total document count after the insert. -/
theorem C8_bulk_sync (ids : List JNum) (as : List JSVal)
    (h : ∀ a ∈ as, a ≠ vNull ∧ a ≠ vUndefined) :
    ∃ L, postSync ids (vObj [("audits", vArr as)])
        = SyncResult.okRes L ("Synced " ++ toString L.length ++ " new audits")
            (ids.length + L.length)
      ∧ List.Forall₂ (fun a s => sanitizeSyncAudit a = Except.ok s)
          (as.filter fun a => !hasIdSVZ ids (toNumber (a.propGet "id"))) L := by
  have hfilter := freshFilter_ok ids as h
  have hmemf : ∀ x ∈ as.filter (fun a => !hasIdSVZ ids (toNumber (a.propGet "id"))),
      x ≠ vNull ∧ x ≠ vUndefined := fun x hx => h x (List.mem_of_mem_filter hx)
  obtain ⟨L, hall, hF⟩ := sanitizeAll_forall _ hmemf
  refine ⟨L, ?_, hF⟩
  have e : postSync ids (vObj [("audits", vArr as)])
      = (match freshFilter ids as with
         | .error e => SyncResult.errorRes e
         | .ok fresh =>
             match sanitizeAll fresh with
             | .error e => SyncResult.errorRes e
             | .ok newAudits =>
                 SyncResult.okRes newAudits
                   ("Synced " ++ toString newAudits.length ++ " new audits")
                   (ids.length + newAudits.length)) := rfl
  rw [e, hfilter]
  show (match sanitizeAll (as.filter fun a => !hasIdSVZ ids (toNumber (a.propGet "id"))) with
        | .error e => SyncResult.errorRes e
        | .ok newAudits =>
            SyncResult.okRes newAudits
              ("Synced " ++ toString newAudits.length ++ " new audits")
              (ids.length + newAudits.length)) = _
  rw [hall]

theorem C8_witness :
    ∃ L, postSync [JNum.q 1] (vObj [("audits", vArr
        [vObj [("id", vNum (JNum.q 1))], vObj [("id", vNum (JNum.q 2))]])])
        = SyncResult.okRes L ("Synced " ++ toString L.length ++ " new audits")
            (([JNum.q 1] : List JNum).length + L.length)
      ∧ List.Forall₂ (fun a s => sanitizeSyncAudit a = Except.ok s)
          ([vObj [("id", vNum (JNum.q 1))], vObj [("id", vNum (JNum.q 2))]].filter
            fun a => !hasIdSVZ [JNum.q 1] (toNumber (a.propGet "id"))) L :=
  C8_bulk_sync [JNum.q 1] [vObj [("id", vNum (JNum.q 1))], vObj [("id", vNum (JNum.q 2))]]
    (by
      intro a ha
      rcases List.mem_cons.mp ha with rfl | ha2
      · exact ⟨fun hh => JSVal.noConfusion hh, fun hh => JSVal.noConfusion hh⟩
      rcases List.mem_cons.mp ha2 with rfl | ha3
      · exact ⟨fun hh => JSVal.noConfusion hh, fun hh => JSVal.noConfusion hh⟩
      · exact absurd ha3 (List.not_mem_nil a))

/-- C9: normalization is idempotent; re-normalizing its own re-injected
output returns that output unchanged, so passing an array of well-formed
records through normalization again is a no-op. -/
theorem C9_idempotent (v : JSVal) :
    normalizePhotos (photosToJS (normalizePhotos v)) = normalizePhotos v :=
  normalizePhotos_glued _ (fun _ hr => normalizePhotos_good hr)

/-- C10: the bulk-sync handler performs no validation of the id field: a
payload whose id is absent or non-numeric coerces to NaN, matches no
stored numeric identifier, and is sanitized and persisted in the batch,
while the single-audit handler rejects the very same payload. -/
theorem C10_sync_no_id_validation (ids : List JNum) (a : JSVal)
    (ha1 : a ≠ vNull) (ha2 : a ≠ vUndefined)
    (hnan : toNumber (a.propGet "id") = JNum.nan)
    (hids : JNum.nan ∉ ids) :
    (∃ s, postSync ids (vObj [("audits", vArr [a])])
        = SyncResult.okRes [s] "Synced 1 new audits" (ids.length + 1)
      ∧ sanitizeSyncAudit a = Except.ok s ∧ s.id = JNum.nan) ∧
    postAudit a = PostAuditResult.reject missingIdMsg := by
  have hhas : hasIdSVZ ids (toNumber (a.propGet "id")) = false := by
    rw [hnan]
    unfold hasIdSVZ
    simp [hids]
  have hfilter : freshFilter ids [a] = .ok [a] := by
    rw [freshFilter_ok ids [a] (by
      intro x hx
      rw [List.mem_singleton] at hx
      subst hx
      exact ⟨ha1, ha2⟩)]
    simp [List.filter_cons, hhas]
  obtain ⟨s, hs1, hs2⟩ : ∃ s, sanitizeSyncAudit a = .ok s
      ∧ s.id = toNumber (a.propGet "id") :=
    ⟨_, by rw [sanitizeSync_ok a ha1 ha2, sanitizeCore_char], rfl⟩
  constructor
  · refine ⟨s, ?_, hs1, by rw [hs2, hnan]⟩
    have hall : sanitizeAll [a] = .ok [s] := by
      show (sanitizeSyncAudit a >>= fun x =>
          sanitizeAll [] >>= fun rest => pure (x :: rest)) = _
      rw [hs1]
      simp only [bind_ok]
      rfl
    have e : postSync ids (vObj [("audits", vArr [a])])
        = (match freshFilter ids [a] with
           | .error e => SyncResult.errorRes e
           | .ok fresh =>
               match sanitizeAll fresh with
               | .error e => SyncResult.errorRes e
               | .ok newAudits =>
                   SyncResult.okRes newAudits
                     ("Synced " ++ toString newAudits.length ++ " new audits")
                     (ids.length + newAudits.length)) := rfl
    rw [e, hfilter]
    show (match sanitizeAll [a] with
          | .error e => SyncResult.errorRes e
          | .ok newAudits =>
              SyncResult.okRes newAudits
                ("Synced " ++ toString newAudits.length ++ " new audits")
                (ids.length + newAudits.length)) = _
    rw [hall]
    show SyncResult.okRes [s]
        ("Synced " ++ toString ([s] : List SanitizedAudit).length ++ " new audits")
        (ids.length + ([s] : List SanitizedAudit).length) = _
    rw [show (([s] : List SanitizedAudit).length) = 1 from rfl]
    rfl
  · rw [postAudit_nonNull a ha1 ha2, postAuditCore_char, if_pos (Or.inr hnan)]

theorem C10_witness :
    (∃ s, postSync [] (vObj [("audits", vArr [vObj []])])
        = SyncResult.okRes [s] "Synced 1 new audits" (([] : List JNum).length + 1)
      ∧ sanitizeSyncAudit (vObj []) = Except.ok s ∧ s.id = JNum.nan) ∧
    postAudit (vObj []) = PostAuditResult.reject missingIdMsg :=
  C10_sync_no_id_validation [] (vObj []) (fun h => JSVal.noConfusion h)
    (fun h => JSVal.noConfusion h) rfl (List.not_mem_nil JNum.nan)
